import Mathlib

/-!
Verification of the NASA-wallpaper pipeline scripts (apiscript.py and
nasa_wallpaper_updater.py): the history store, asset selection, the retrying
HTTP stages, and the downloader are shallowly embedded as pure Lean
functions, and the specified properties are settled against them.

Python strings are modelled as lists of characters where character-level
operations (split, lower, endswith) matter; entries stored in the history
file are kept polymorphic, since the history logic never inspects them.
-/

namespace NasaWallpaper

/-! ## History store (save_wallpaper_history in apiscript.py, lines 111-132) -/

/-- State of the persisted wallpaper_history.json file: absent, a
well-formed JSON list of entries, or unparseable content. -/
inductive HistFile (α : Type) where
  | absent : HistFile α
  | good : List α → HistFile α
  | malformed : HistFile α
deriving DecidableEq

/-- Fault injected into the write phase of a record operation: noFault means
the write to the history file completes; writeFault means open("w") truncates
the file and json.dump then fails partway, leaving unparseable content. -/
inductive SaveFault where
  | noFault : SaveFault
  | writeFault : SaveFault
deriving DecidableEq

/-- Python slice l[-n:]: the last n elements of l (all of l when it is
shorter than n). -/
def lastSlice (n : Nat) (l : List α) : List α := l.drop (l.length - n)

/-- KDENASAWallpaper.save_wallpaper_history: load the existing history (an
absent file reads as the empty list; json.load raising on unparseable content
aborts before any write), append the new entry, truncate with history[-50:],
and write the file back. -/
def save_wallpaper_history {α : Type} : HistFile α → SaveFault → α → HistFile α
  | .absent, .noFault, e => .good (lastSlice 50 [e])
  | .absent, .writeFault, _ => .malformed
  | .good l, .noFault, e => .good (lastSlice 50 (l ++ [e]))
  | .good _, .writeFault, _ => .malformed
  | .malformed, _, _ => .malformed

/-- The load operation of the history store: an absent file yields the empty
sequence (not an error), a well-formed file yields its entries in stored
order, and unparseable content raises (modelled as none). -/
def load_history {α : Type} : HistFile α → Option (List α)
  | .absent => some []
  | .good l => some l
  | .malformed => none

/-- KDENASAWallpaper.set_wallpaper: evaluateScript applies the wallpaper
(success abstracted as the applyOk flag); save_wallpaper_history runs only
after a successful apply. Returns the resulting history file and whether the
record operation was invoked. -/
def set_wallpaper {α : Type} (file : HistFile α) (applyOk : Bool) (fault : SaveFault)
    (e : α) : HistFile α × Bool :=
  if applyOk then (save_wallpaper_history file fault e, true) else (file, false)

/-- One fault-free record step, as replayed by the orchestrator. -/
def recordStep {α : Type} (st : HistFile α) (e : α) : HistFile α :=
  save_wallpaper_history st .noFault e

theorem lastSlice_eq_reverse_take {α : Type} (n : Nat) (l : List α) :
    lastSlice n l = (l.reverse.take n).reverse := by
  rw [lastSlice, List.take_reverse, List.reverse_reverse]

theorem lastSlice_of_le {α : Type} {n : Nat} {l : List α} (h : l.length ≤ n) :
    lastSlice n l = l := by
  unfold lastSlice
  rw [Nat.sub_eq_zero_of_le h, List.drop_zero]

theorem foldl_record_good {α : Type} (es : List α) (l : List α)
    (h : l.length + es.length ≤ 50) :
    es.foldl recordStep (.good l) = .good (l ++ es) := by
  induction es generalizing l with
  | nil => simp
  | cons e rest ih =>
    have h1 : (l ++ [e]).length ≤ 50 := by
      simp only [List.length_append, List.length_cons, List.length_nil] at h ⊢
      omega
    have hstep : recordStep (HistFile.good l) e = .good (l ++ [e]) := by
      simp [recordStep, save_wallpaper_history, lastSlice_of_le h1]
    have h2 : (l ++ [e]).length + rest.length ≤ 50 := by
      simp only [List.length_append, List.length_cons, List.length_nil] at h ⊢
      omega
    rw [List.foldl_cons, hstep, ih (l ++ [e]) h2]
    simp

/-- C1: a fault-free record on a stored sequence whose appended length
exceeds 50 stores exactly the last 50 entries, in their original insertion
order (the oldest entries are dropped from the front). -/
theorem record_caps_history_at_50 {α : Type} (l : List α) (e : α)
    (h : 50 < (l ++ [e]).length) :
    save_wallpaper_history (.good l) .noFault e =
      .good (((l ++ [e]).reverse.take 50).reverse) ∧
    (((l ++ [e]).reverse.take 50).reverse).length = 50 := by
  constructor
  · simp [save_wallpaper_history, lastSlice_eq_reverse_take]
  · simp only [List.length_reverse, List.length_take]
    omega

/-- C1 witness: recording a 51st entry onto a full 50-entry history keeps
exactly the last 50 entries. -/
theorem record_caps_history_at_50_witness :
    50 < ((List.replicate 50 (0 : Nat)) ++ [1]).length ∧
    (save_wallpaper_history (.good (List.replicate 50 (0 : Nat))) .noFault 1 =
      .good ((((List.replicate 50 (0 : Nat)) ++ [1]).reverse.take 50).reverse) ∧
    (((((List.replicate 50 (0 : Nat)) ++ [1]).reverse.take 50).reverse)).length = 50) :=
  ⟨by decide, record_caps_history_at_50 (List.replicate 50 0) 1 (by decide)⟩

/-- C5: when the apply step of set_wallpaper fails, record is not invoked
and the persisted history (and what load returns from it) is unchanged. -/
theorem apply_failure_skips_record {α : Type} (file : HistFile α) (fault : SaveFault)
    (e : α) :
    set_wallpaper file false fault e = (file, false) ∧
    load_history (set_wallpaper file false fault e).1 = load_history file := by
  constructor <;> simp [set_wallpaper]

/-- C6: replaying N ≤ 50 fault-free records from an absent history file
makes load return exactly those entries in insertion order; load on an
absent file returns the empty sequence rather than an error. -/
theorem replay_records_load_in_order {α : Type} (es : List α) (h : es.length ≤ 50) :
    load_history (es.foldl recordStep (.absent : HistFile α)) = some es ∧
    load_history (.absent : HistFile α) = some [] := by
  refine ⟨?_, rfl⟩
  cases es with
  | nil => rfl
  | cons e rest =>
    have h1 : [e].length + rest.length ≤ 50 := by
      simp only [List.length_cons, List.length_nil] at h ⊢
      omega
    have hstep : recordStep (HistFile.absent : HistFile α) e = .good [e] := by
      simp [recordStep, save_wallpaper_history, lastSlice_of_le]
    rw [List.foldl_cons, hstep, foldl_record_good rest [e] h1]
    rfl

/-- C6 witness: replaying three records from an absent file loads back
those three entries in order. -/
theorem replay_records_load_in_order_witness :
    ([10, 20, 30] : List Nat).length ≤ 50 ∧
    (load_history (([10, 20, 30] : List Nat).foldl recordStep .absent) =
      some [10, 20, 30] ∧
    load_history (.absent : HistFile Nat) = some []) :=
  ⟨by decide, replay_records_load_in_order [10, 20, 30] (by decide)⟩

/-- C10 counterexample: a record whose write phase fails leaves the history
file changed (truncated to unparseable content), so a failing record does
not always leave the persisted file exactly as it was. -/
theorem record_write_fault_changes_file :
    save_wallpaper_history (HistFile.good [(0 : Nat)]) .writeFault 1 =
      HistFile.malformed ∧
    (HistFile.malformed : HistFile Nat) ≠ HistFile.good [0] := by
  exact ⟨rfl, by decide⟩

/-- C10 amended: a record whose read/parse phase fails performs no write and
leaves the file unchanged; only a fault in the write phase itself (open for
writing truncates before json.dump completes) can corrupt the file. -/
theorem record_no_write_on_read_failure {α : Type} (fault : SaveFault) (e : α)
    (l : List α) :
    save_wallpaper_history (.malformed : HistFile α) fault e = .malformed ∧
    save_wallpaper_history (.good l) .writeFault e = .malformed := by
  cases fault <;> exact ⟨rfl, rfl⟩

/-! ## Retrying HTTP stages (search_nasa_images, get_asset_url, download_image
in apiscript.py lines 323-390; same shapes in nasa_wallpaper_updater.py) -/

/-- Outcome of one HTTP attempt of a stage, as the Python code can observe
it: a usable success value; a 200 response whose item list is empty; a
non-200 status; a requests.exceptions.RequestException from the transport;
a JSON body that fails to parse (requests raises JSONDecodeError, which is a
subclass of RequestException); or a response missing an expected field, where
the subscripting raises KeyError or IndexError. -/
inductive HttpOutcome (α : Type) where
  | success : α → HttpOutcome α
  | emptyItems : HttpOutcome α
  | badStatus : HttpOutcome α
  | netError : HttpOutcome α
  | malformedJson : HttpOutcome α
  | missingField : HttpOutcome α
deriving DecidableEq

/-- True for the outcomes the while loop retries: non-200 statuses fall
through the if, and RequestException (including JSONDecodeError) is caught;
both reach the next loop iteration. -/
def retried {α : Type} : HttpOutcome α → Bool
  | .badStatus => true
  | .netError => true
  | .malformedJson => true
  | _ => false

/-- True for the transient failures named by the retry-policy property:
network-level failures and non-2xx statuses. -/
def transient {α : Type} : HttpOutcome α → Bool
  | .badStatus => true
  | .netError => true
  | _ => false

/-- Loop body of search_nasa_images(query, retries): attempt numbers count
up from the given start while fuel (remaining allowed attempts) lasts.
Returns the result and how many attempts were made: Except.error models an
uncaught exception (KeyError on a missing field) escaping the function, and
Except.ok none is the None returned on an empty item list or on exhaustion
of the attempt budget. -/
def searchLoop {α : Type} (f : Nat → HttpOutcome α) : Nat → Nat → Except Unit (Option α) × Nat
  | _, 0 => (.ok none, 0)
  | attempt, fuel + 1 =>
    match f attempt with
    | .success v => (.ok (some v), 1)
    | .emptyItems => (.ok none, 1)
    | .missingField => (.error (), 1)
    | _ =>
      let r := searchLoop f (attempt + 1) fuel
      (r.1, r.2 + 1)

/-- search_nasa_images(query, retries=3) from apiscript.py lines 323-347,
with the sequence of attempt outcomes abstracted as f: while attempt <
retries, issue the request and dispatch on its outcome. get_asset_url and
download_image share this loop shape. -/
def search_nasa_images {α : Type} (f : Nat → HttpOutcome α) (retries : Nat) :
    Except Unit (Option α) × Nat :=
  searchLoop f 0 retries

theorem transient_retried {α : Type} {o : HttpOutcome α} (h : transient o = true) :
    retried o = true := by
  cases o <;> simp_all [transient, retried]

theorem searchLoop_retried_step {α : Type} (f : Nat → HttpOutcome α) (start fuel : Nat)
    (h : retried (f start) = true) :
    searchLoop f start (fuel + 1) =
      ((searchLoop f (start + 1) fuel).1, (searchLoop f (start + 1) fuel).2 + 1) := by
  cases hf : f start <;> simp [searchLoop, hf] <;> simp [retried, hf] at h

theorem searchLoop_succeeds {α : Type} (f : Nat → HttpOutcome α) (v : α) :
    ∀ (K start fuel : Nat), (∀ i, i < K → retried (f (start + i)) = true) →
    f (start + K) = .success v → K < fuel →
    searchLoop f start fuel = (.ok (some v), K + 1) := by
  intro K
  induction K with
  | zero =>
    intro start fuel _ hs hlt
    cases fuel with
    | zero => omega
    | succ fuel =>
      rw [Nat.add_zero] at hs
      simp [searchLoop, hs]
  | succ K ih =>
    intro start fuel hr hs hlt
    cases fuel with
    | zero => omega
    | succ fuel =>
      have h0 : retried (f start) = true := by
        have := hr 0 (by omega)
        simpa using this
      have hrest : ∀ i, i < K → retried (f (start + 1 + i)) = true := by
        intro i hi
        have := hr (i + 1) (by omega)
        have heq : start + (i + 1) = start + 1 + i := by omega
        rwa [heq] at this
      have hs' : f (start + 1 + K) = .success v := by
        have heq : start + 1 + K = start + (K + 1) := by omega
        rw [heq]
        exact hs
      have hrec := ih (start + 1) fuel hrest hs' (by omega)
      rw [searchLoop_retried_step f start fuel h0, hrec]

theorem searchLoop_exhausts {α : Type} (f : Nat → HttpOutcome α) :
    ∀ (fuel start : Nat), (∀ i, i < fuel → retried (f (start + i)) = true) →
    searchLoop f start fuel = (.ok none, fuel) := by
  intro fuel
  induction fuel with
  | zero => intro start _; rfl
  | succ fuel ih =>
    intro start hr
    have h0 : retried (f start) = true := by
      have := hr 0 (by omega)
      simpa using this
    have hrest : ∀ i, i < fuel → retried (f (start + 1 + i)) = true := by
      intro i hi
      have := hr (i + 1) (by omega)
      have heq : start + (i + 1) = start + 1 + i := by omega
      rwa [heq] at this
    rw [searchLoop_retried_step f start fuel h0, ih (start + 1) hrest]

/-- C3 counterexample: with the default budget retries = 3 and a transport
that fails transiently on every attempt, the stage makes exactly 3 attempts
and then surfaces None; it never reaches max_retries + 1 = 4 failures, so
the error is surfaced after max_retries failures, not max_retries + 1. -/
theorem retry_budget_counterexample :
    search_nasa_images (fun _ => (HttpOutcome.netError : HttpOutcome Nat)) 3 =
      (Except.ok none, 3) ∧ (3 : Nat) ≠ 3 + 1 :=
  ⟨rfl, by decide⟩

/-- C3 amended: a stage that fails transiently exactly K < retries times and
then succeeds returns the success result (after K + 1 attempts); a stage
whose every attempt fails transiently surfaces None after exactly retries
attempts and makes no further attempts. -/
theorem retry_policy {α : Type} (f : Nat → HttpOutcome α) (v : α) (K retries : Nat) :
    ((∀ i, i < K → transient (f i) = true) → f K = .success v → K < retries →
      search_nasa_images f retries = (.ok (some v), K + 1)) ∧
    ((∀ i, i < retries → transient (f i) = true) →
      search_nasa_images f retries = (.ok none, retries)) := by
  constructor
  · intro h1 h2 h3
    exact searchLoop_succeeds f v K 0 retries
      (fun i hi => by simpa using transient_retried (h1 i hi))
      (by simpa using h2) h3
  · intro h1
    exact searchLoop_exhausts f retries 0
      (fun i hi => by simpa using transient_retried (h1 i hi))

/-- C3 witness: two network failures then a success yield the success in
three attempts; three network failures in a row yield None in exactly three
attempts. -/
theorem retry_policy_witness :
    ((∀ i, i < 2 →
        transient ((fun j => if j < 2 then (HttpOutcome.netError : HttpOutcome Nat)
          else .success 7) i) = true) ∧ (2 : Nat) < 3 ∧
      (∀ i, i < 3 → transient ((fun _ => (HttpOutcome.netError : HttpOutcome Nat)) i) = true)) ∧
    search_nasa_images (fun j => if j < 2 then (HttpOutcome.netError : HttpOutcome Nat)
      else .success 7) 3 = (.ok (some 7), 3) ∧
    search_nasa_images (fun _ => (HttpOutcome.netError : HttpOutcome Nat)) 3 =
      (.ok none, 3) :=
  ⟨⟨by decide, by decide, by decide⟩,
    (retry_policy (fun j => if j < 2 then .netError else .success 7) 7 2 3).1
      (by decide) (by decide) (by decide),
    (retry_policy (fun _ => (HttpOutcome.netError : HttpOutcome Nat)) 0 0 3).2 (by decide)⟩

/-- C7 counterexample: an attempt whose JSON body fails to parse raises
requests.exceptions.JSONDecodeError, a RequestException, which the loop
catches: the stage retries and succeeds on attempt two, so a retry is
performed after a protocol/parse failure rather than surfacing it
immediately. -/
theorem malformed_json_retried_counterexample :
    search_nasa_images (fun j => if j = 0 then (HttpOutcome.malformedJson : HttpOutcome Nat)
      else .success 7) 3 = (.ok (some 7), 2) ∧ (2 : Nat) ≠ 1 :=
  ⟨rfl, by decide⟩

/-- C7 amended: network failures, non-200 statuses and malformed JSON bodies
are all retried (a following successful attempt is returned); only a missing
expected field (KeyError outside the except clause) is surfaced immediately,
as an uncaught exception, with no further attempts. -/
theorem retry_discrimination {α : Type} (f : Nat → HttpOutcome α) (v : α) (retries : Nat) :
    (retried (f 0) = true → f 1 = .success v → 2 ≤ retries →
      search_nasa_images f retries = (.ok (some v), 2)) ∧
    (f 0 = .missingField → 1 ≤ retries →
      search_nasa_images f retries = (.error (), 1)) := by
  constructor
  · intro h0 h1 h2
    exact searchLoop_succeeds f v 1 0 retries
      (fun i hi => by
        have : i = 0 := by omega
        subst this
        simpa using h0)
      (by simpa using h1) (by omega)
  · intro h0 h1
    cases retries with
    | zero => omega
    | succ retries => simp [search_nasa_images, searchLoop, h0]

/-- C7 witness: a malformed JSON body on the first attempt is retried and
the second attempt returns the success; a missing field on the first attempt
escapes immediately after one attempt. -/
theorem retry_discrimination_witness :
    (retried ((fun j => if j = 0 then (HttpOutcome.malformedJson : HttpOutcome Nat)
        else .success 5) 0) = true ∧ (2 : Nat) ≤ 3 ∧
      (fun _ => (HttpOutcome.missingField : HttpOutcome Nat)) 0 = .missingField) ∧
    search_nasa_images (fun j => if j = 0 then (HttpOutcome.malformedJson : HttpOutcome Nat)
      else .success 5) 3 = (.ok (some 5), 2) ∧
    search_nasa_images (fun _ => (HttpOutcome.missingField : HttpOutcome Nat)) 3 =
      (.error (), 1) :=
  ⟨⟨by decide, by decide, rfl⟩,
    (retry_discrimination (fun j => if j = 0 then .malformedJson else .success 5) 5 3).1
      (by decide) (by decide) (by decide),
    (retry_discrimination (fun _ => (HttpOutcome.missingField : HttpOutcome Nat)) 0 3).2
      rfl (by decide)⟩

/-- C9 counterexample: a 200 response with an empty item list makes the
stage return None, the same value it returns after exhausting its retries on
errors, so the empty result is not distinguishable from a failure in the
returned value. -/
theorem empty_result_indistinguishable :
    (search_nasa_images (fun _ => (HttpOutcome.emptyItems : HttpOutcome Nat)) 3).1 =
      (search_nasa_images (fun _ => (HttpOutcome.netError : HttpOutcome Nat)) 3).1 ∧
    (search_nasa_images (fun _ => (HttpOutcome.emptyItems : HttpOutcome Nat)) 3).1 =
      .ok none :=
  ⟨rfl, rfl⟩

/-- C9 amended: a parsed 200 response with an empty item list makes the
stage return None immediately, after a single attempt and without retrying
or raising; the returned None coincides with the value returned on failure,
so callers cannot distinguish the two from the return value alone. -/
theorem empty_result_returns_none {α : Type} (f : Nat → HttpOutcome α) (retries : Nat)
    (h0 : f 0 = .emptyItems) (h1 : 1 ≤ retries) :
    search_nasa_images f retries = (.ok none, 1) := by
  cases retries with
  | zero => omega
  | succ retries => simp [search_nasa_images, searchLoop, h0]

/-- C9 witness: an empty item list on the first attempt returns None after
exactly one attempt. -/
theorem empty_result_returns_none_witness :
    ((fun _ => (HttpOutcome.emptyItems : HttpOutcome Nat)) 0 = .emptyItems ∧
      (1 : Nat) ≤ 3) ∧
    search_nasa_images (fun _ => (HttpOutcome.emptyItems : HttpOutcome Nat)) 3 =
      (.ok none, 1) :=
  ⟨⟨rfl, by decide⟩,
    empty_result_returns_none (fun _ => (HttpOutcome.emptyItems : HttpOutcome Nat)) 3
      rfl (by decide)⟩

/-! ## Character-level string operations used by the scripts -/

/-- Python strings at character granularity. -/
abbrev Str := List Char

/-- Python str.lower on the hrefs and URLs the scripts handle. -/
def lowerStr (s : Str) : Str := s.map Char.toLower

/-- Python s.split(sep) for a one-character separator: same chunking,
including the leading/trailing empty chunks Python produces. -/
def splitOnChar (sep : Char) : Str → List Str
  | [] => [[]]
  | c :: rest =>
    if c = sep then [] :: splitOnChar sep rest
    else
      match splitOnChar sep rest with
      | [] => [[c]]
      | h :: t => (c :: h) :: t

/-- Python s.split(sep)[-1]: the chunk after the last separator (the whole
string when the separator does not occur). -/
def lastChunk (sep : Char) (s : Str) : Str := (splitOnChar sep s).getLastD []

theorem splitOnChar_ne_nil (sep : Char) (s : Str) : splitOnChar sep s ≠ [] := by
  cases s with
  | nil => simp [splitOnChar]
  | cons c rest =>
    by_cases h : c = sep
    · simp [splitOnChar, h]
    · simp only [splitOnChar, if_neg h]
      cases splitOnChar sep rest <;> simp

theorem splitOnChar_of_not_mem (sep : Char) (s : Str) (h : sep ∉ s) :
    splitOnChar sep s = [s] := by
  induction s with
  | nil => rfl
  | cons c rest ih =>
    have hc : ¬ c = sep := fun hcs => h (hcs ▸ List.mem_cons_self c rest)
    have hr : sep ∉ rest := fun hm => h (List.mem_cons_of_mem c hm)
    simp only [splitOnChar, if_neg hc, ih hr]

theorem splitOnChar_length_of_mem (sep : Char) (s : Str) (h : sep ∈ s) :
    2 ≤ (splitOnChar sep s).length := by
  induction s with
  | nil => simp at h
  | cons c rest ih =>
    by_cases hc : c = sep
    · simp only [splitOnChar, if_pos hc, List.length_cons]
      have := splitOnChar_ne_nil sep rest
      have : 1 ≤ (splitOnChar sep rest).length := by
        cases hs : splitOnChar sep rest with
        | nil => exact absurd hs this
        | cons a t => simp
      omega
    · have hr : sep ∈ rest := by
        rcases List.mem_cons.mp h with h1 | h1
        · exact absurd h1.symm hc
        · exact h1
      simp only [splitOnChar, if_neg hc]
      cases hs : splitOnChar sep rest with
      | nil => exact absurd hs (splitOnChar_ne_nil sep rest)
      | cons a t =>
        have := ih hr
        rw [hs] at this
        simpa using this

theorem takeWhile_append_last_false {α : Type} (p : α → Bool) (c : α) (hc : p c = false) :
    ∀ (xs : List α), (xs ++ [c]).takeWhile p = xs.takeWhile p
  | [] => by simp [List.takeWhile, hc]
  | x :: xs => by
    by_cases hx : p x <;>
      simp [List.takeWhile_cons, hx, takeWhile_append_last_false p c hc xs]

theorem takeWhile_append_of_stop {α : Type} (p : α → Bool) (ys : List α) :
    ∀ (xs : List α) (x : α), x ∈ xs → p x = false →
      (xs ++ ys).takeWhile p = xs.takeWhile p
  | [], x, hx, _ => by simp at hx
  | a :: xs, x, hx, hpx => by
    by_cases ha : p a
    · have hxs : x ∈ xs := by
        rcases List.mem_cons.mp hx with h1 | h1
        · rw [h1] at hpx
          rw [hpx] at ha
          simp at ha
        · exact h1
      simp [List.takeWhile_cons, ha, takeWhile_append_of_stop p ys xs x hxs hpx]
    · simp [List.takeWhile_cons, ha]

theorem lastChunk_eq_suffix_after (sep : Char) (s : Str) :
    lastChunk sep s = (s.reverse.takeWhile (fun c => c != sep)).reverse := by
  induction s with
  | nil => rfl
  | cons c rest ih =>
    by_cases hc : c = sep
    · have hpc : (fun x => x != sep) c = false := by simp [hc]
      have lhs : lastChunk sep (c :: rest) = lastChunk sep rest := by
        simp only [lastChunk, splitOnChar, if_pos hc, List.getLastD_cons]
      rw [lhs, ih, List.reverse_cons, takeWhile_append_last_false _ c hpc]
    · have hpc : (fun x => x != sep) c = true := by simp [hc]
      by_cases hmem : sep ∈ rest
      · have hpsep : (fun x => x != sep) sep = false := by simp
        have hsepr : sep ∈ rest.reverse := List.mem_reverse.mpr hmem
        have rhs : ((c :: rest).reverse.takeWhile (fun x => x != sep)) =
            rest.reverse.takeWhile (fun x => x != sep) := by
          rw [List.reverse_cons]
          exact takeWhile_append_of_stop _ [c] rest.reverse sep hsepr hpsep
        cases hs : splitOnChar sep rest with
        | nil => exact absurd hs (splitOnChar_ne_nil sep rest)
        | cons h t =>
          have ht : t ≠ [] := by
            have := splitOnChar_length_of_mem sep rest hmem
            rw [hs] at this
            cases t with
            | nil => simp at this
            | cons a tt => simp
          have lhs : lastChunk sep (c :: rest) = lastChunk sep rest := by
            simp only [lastChunk, splitOnChar, if_neg hc, hs]
            cases t with
            | nil => exact absurd rfl ht
            | cons a tt => simp only [List.getLastD_cons]
          rw [lhs, ih, rhs]
      · have hall : ∀ x ∈ (c :: rest).reverse, (fun y => y != sep) x = true := by
          intro x hx
          rcases List.mem_reverse.mp hx with hx'
          rcases List.mem_cons.mp hx' with h1 | h1
          · rw [h1]; exact hpc
          · have : ¬ x = sep := fun hxs => hmem (hxs ▸ h1)
            simp [this]
        have rhs : ((c :: rest).reverse.takeWhile (fun x => x != sep)) = (c :: rest).reverse :=
          List.takeWhile_eq_self_iff.mpr hall
        have lhs : lastChunk sep (c :: rest) = c :: rest := by
          simp only [lastChunk, splitOnChar, if_neg hc, splitOnChar_of_not_mem sep rest hmem]
          rfl
        rw [lhs, rhs, List.reverse_reverse]

/-! ## Asset selection (fetch_and_set_wallpaper in apiscript.py lines 205-213;
get_asset_url in nasa_wallpaper_updater.py lines 37-49) -/

/-- The extension test applied to each manifest href in
fetch_and_set_wallpaper: href.lower().endswith((".jpg", ".jpeg", ".png")). -/
def matchesExt (href : Str) : Bool :=
  List.isSuffixOf ".jpg".data (lowerStr href) ||
    List.isSuffixOf ".jpeg".data (lowerStr href) ||
    List.isSuffixOf ".png".data (lowerStr href)

/-- Asset selection in fetch_and_set_wallpaper: scan the manifest items in
order and keep the first href passing the extension test; None when no item
passes. -/
def selectAsset (hrefs : List Str) : Option Str := hrefs.find? matchesExt

/-- Modelled from the spec wording for comparison: first href whose
extension matches the default allow-list, by explicit first-match recursion
over the manifest order. -/
def selectAssetSpec : List Str → Option Str
  | [] => none
  | h :: t => if matchesExt h then some h else selectAssetSpec t

/-- get_asset_url in nasa_wallpaper_updater.py: return the href of the last
manifest item (items[-1]) with no extension filtering; None only when the
item list is empty. -/
def get_asset_url (hrefs : List Str) : Option Str := hrefs.getLast?

/-- C2 counterexample: on the one-item manifest [img.tif] no href matches
the allow-list, so by the claim asset selection must fail; yet get_asset_url
(one of the two selection routines named by the claim) returns img.tif,
ignoring the allow-list entirely. -/
theorem get_asset_url_ignores_allowlist :
    get_asset_url ["img.tif".data] = some "img.tif".data ∧
    matchesExt "img.tif".data = false ∧
    selectAsset ["img.tif".data] = none := by
  refine ⟨rfl, by decide, by decide⟩

/-- C2 amended: the selection in fetch_and_set_wallpaper is the first href
passing the case-insensitive jpg/jpeg/png test, returns None exactly when no
href passes, and is a deterministic function of the manifest; get_asset_url
in nasa_wallpaper_updater.py instead returns the last href unfiltered. -/
theorem selectAsset_first_match (hrefs : List Str) :
    selectAsset hrefs = selectAssetSpec hrefs ∧
    (selectAsset hrefs = none ↔ ∀ h ∈ hrefs, matchesExt h = false) ∧
    (∀ l : List Str, get_asset_url l = l.getLast?) := by
  refine ⟨?_, ?_, fun l => rfl⟩
  · induction hrefs with
    | nil => rfl
    | cons h t ih =>
      by_cases hm : matchesExt h
      · simp [selectAsset, selectAssetSpec, List.find?_cons, hm]
      · simp only [selectAsset, selectAssetSpec, List.find?_cons, hm, if_neg]
        simpa [selectAsset] using ih
  · rw [selectAsset, List.find?_eq_none]
    constructor
    · intro h x hx
      have := h x hx
      simpa using this
    · intro h x hx
      simp [h x hx]

/-! ## Downloader (download_wallpaper in apiscript.py lines 150-180;
download_image in nasa_wallpaper_updater.py lines 53-60) -/

/-- File-system state a download touches: whether the scratch temp file
currently exists, and the file at the final destination (its name and
bytes), if any. -/
structure DLState where
  tempExists : Bool
  dest : Option (Str × List Nat)
deriving DecidableEq

/-- The extension computed by download_wallpaper:
image_url.split(".")[-1].lower(), over the whole URL. -/
def file_extension (url : Str) : Str := lowerStr (lastChunk '.' url)

/-- The final filename built by download_wallpaper:
nasa_{nasa_id}_{timestamp}.{file_extension}. -/
def wallpaperFilename (nasa_id timestamp url : Str) : Str :=
  "nasa_".data ++ nasa_id ++ "_".data ++ timestamp ++ ".".data ++ file_extension url

/-- download_wallpaper: create a named temp file, fetch the URL (resp none
models a network failure or a raise_for_status), write the body to the temp
file (writeOk false models an I/O failure during that write), then move the
temp file onto the computed destination name; on any exception the temp file
is unlinked (missing_ok) and None is returned. -/
def download_wallpaper (st : DLState) (url nasa_id timestamp : Str)
    (resp : Option (List Nat)) (writeOk : Bool) : DLState × Option Str :=
  match resp with
  | none => ({ st with tempExists := false }, none)
  | some bytes =>
    if writeOk then
      ({ tempExists := false,
         dest := some (wallpaperFilename nasa_id timestamp url, bytes) },
        some (wallpaperFilename nasa_id timestamp url))
    else
      ({ st with tempExists := false }, none)

/-- download_image in nasa_wallpaper_updater.py: on a 200 response,
open(save_path, "wb") truncates the destination file in place and the body
is written directly there; writeOk false models an I/O failure after k bytes
of the write. On a failed response nothing is written. -/
def download_image (st : DLState) (save_path : Str) (resp : Option (List Nat))
    (writeOk : Bool) (k : Nat) : DLState :=
  match resp with
  | none => st
  | some bytes =>
    if writeOk then { st with dest := some (save_path, bytes) }
    else { st with dest := some (save_path, bytes.take k) }

/-- C4 counterexample: download_image writes straight to the destination
path, so a transfer interrupted after one of three bytes leaves a one-byte
partial file at the destination, where the claim requires none. -/
theorem download_image_partial_counterexample :
    (download_image ⟨false, none⟩ "/tmp/nasa_wallpaper.jpg".data
        (some [1, 2, 3]) false 1).dest =
      some ("/tmp/nasa_wallpaper.jpg".data, [1]) ∧
    ([1] : List Nat) ≠ [1, 2, 3] := by
  refine ⟨rfl, by decide⟩

/-- C4 amended: download_wallpaper (apiscript.py) is atomic: every failing
run leaves the destination exactly as it was and removes the temp file;
download_image (nasa_wallpaper_updater.py) has no such guarantee since it
writes directly to the destination. -/
theorem download_wallpaper_failure_clean (st : DLState) (url nasa_id timestamp : Str)
    (resp : Option (List Nat)) (writeOk : Bool)
    (h : (download_wallpaper st url nasa_id timestamp resp writeOk).2 = none) :
    (download_wallpaper st url nasa_id timestamp resp writeOk).1.dest = st.dest ∧
    (download_wallpaper st url nasa_id timestamp resp writeOk).1.tempExists = false := by
  cases resp with
  | none => exact ⟨rfl, rfl⟩
  | some bytes =>
    by_cases hw : writeOk
    · simp [download_wallpaper, hw] at h
    · simp [download_wallpaper, hw]

/-- C4 witness: a network failure during download_wallpaper returns None,
leaves the destination untouched and removes the temp file. -/
theorem download_wallpaper_failure_clean_witness :
    (download_wallpaper ⟨false, none⟩ "http://x/a.jpg".data "id1".data "ts".data
        none true).2 = none ∧
    ((download_wallpaper ⟨false, none⟩ "http://x/a.jpg".data "id1".data "ts".data
        none true).1.dest = none ∧
      (download_wallpaper ⟨false, none⟩ "http://x/a.jpg".data "id1".data "ts".data
        none true).1.tempExists = false) :=
  ⟨rfl, download_wallpaper_failure_clean ⟨false, none⟩ "http://x/a.jpg".data
    "id1".data "ts".data none true rfl⟩

/-- The final path segment of a URL: everything after its last slash. -/
def finalPathSegment (url : Str) : Str := lastChunk '/' url

/-- Modelled from the spec wording for comparison: the extension of the
final path segment, present only when the segment itself contains a dot, as
the lowercased suffix after its last dot. -/
def segmentExtension (seg : Str) : Option Str :=
  if ('.' : Char) ∈ seg then
    some (lowerStr ((seg.reverse.takeWhile (fun c => c != '.')).reverse))
  else none

theorem takeWhile_takeWhile_of_stop {α : Type} (p q : α → Bool) :
    ∀ (l : List α) (x : α), x ∈ l.takeWhile q → p x = false →
      l.takeWhile p = (l.takeWhile q).takeWhile p
  | [], x, hx, _ => by simp at hx
  | a :: l, x, hx, hpx => by
    by_cases hq : q a
    · have hqa : List.takeWhile q (a :: l) = a :: List.takeWhile q l := by
        rw [List.takeWhile_cons, if_pos hq]
      rw [hqa] at hx
      by_cases hp : p a
      · have hxl : x ∈ l.takeWhile q := by
          rcases List.mem_cons.mp hx with h1 | h1
          · rw [h1] at hpx
            rw [hpx] at hp
            simp at hp
          · exact h1
        rw [hqa, List.takeWhile_cons, if_pos hp, List.takeWhile_cons, if_pos hp,
          takeWhile_takeWhile_of_stop p q l x hxl hpx]
      · rw [hqa, List.takeWhile_cons, if_neg hp, List.takeWhile_cons, if_neg hp]
    · rw [List.takeWhile_cons, if_neg hq] at hx
      simp at hx

/-- C8 counterexample: for the URL http://h/a.b/c the code computes the
extension from the whole URL, url.split(".")[-1].lower() = b/c, while the
final path segment c has no extension at all: the produced ext is not the
extension of the final path segment. -/
theorem extension_not_from_final_segment :
    file_extension "http://h/a.b/c".data = "b/c".data ∧
    segmentExtension (finalPathSegment "http://h/a.b/c".data) = none ∧
    some (file_extension "http://h/a.b/c".data) ≠
      segmentExtension (finalPathSegment "http://h/a.b/c".data) := by
  refine ⟨by decide, by decide, by decide⟩

/-- C8 amended: a successful download_wallpaper removes the temp file and
moves the body to a destination named nasa_{id}_{timestamp}.{ext}, where ext
is the lowercased substring of the whole URL after its last dot; ext agrees
with the extension of the final path segment whenever that segment contains
a dot. -/
theorem download_naming (st : DLState) (url nasa_id timestamp : Str) (bytes : List Nat) :
    download_wallpaper st url nasa_id timestamp (some bytes) true =
      ({ tempExists := false,
         dest := some (wallpaperFilename nasa_id timestamp url, bytes) },
        some (wallpaperFilename nasa_id timestamp url)) ∧
    file_extension url = lowerStr ((url.reverse.takeWhile (fun c => c != '.')).reverse) ∧
    (('.' : Char) ∈ finalPathSegment url →
      segmentExtension (finalPathSegment url) = some (file_extension url)) := by
  refine ⟨rfl, by rw [file_extension, lastChunk_eq_suffix_after], ?_⟩
  intro hdot
  have hsegrev : (finalPathSegment url).reverse =
      url.reverse.takeWhile (fun c => c != '/') := by
    rw [finalPathSegment, lastChunk_eq_suffix_after, List.reverse_reverse]
  have h1 : ('.' : Char) ∈ url.reverse.takeWhile (fun c => c != '/') := by
    rw [← hsegrev]
    exact List.mem_reverse.mpr hdot
  have h2 : (fun c => c != '.') ('.' : Char) = false := by simp
  have key : url.reverse.takeWhile (fun c => c != '.') =
      (url.reverse.takeWhile (fun c => c != '/')).takeWhile (fun c => c != '.') :=
    takeWhile_takeWhile_of_stop _ _ url.reverse '.' h1 h2
  rw [segmentExtension, if_pos hdot, file_extension, lastChunk_eq_suffix_after,
    hsegrev, key]

/-- C8 witness: for the URL http://x/a.JPG the final path segment a.JPG has
the extension jpg once lowercased, and it coincides with the ext the code
computes. -/
theorem download_naming_witness :
    ('.' : Char) ∈ finalPathSegment "http://x/a.JPG".data ∧
    segmentExtension (finalPathSegment "http://x/a.JPG".data) =
      some (file_extension "http://x/a.JPG".data) :=
  ⟨by decide,
    (download_naming ⟨false, none⟩ "http://x/a.JPG".data "i".data "t".data [9]).2.2
      (by decide)⟩

end NasaWallpaper
